import Mathlib

/-!
Verification of the Punch Clock time-tracking plugin's data-manager layer.

The development shallowly embeds the TypeScript sources: pure functions become
Lean functions over `Int`/`Nat`/`String`; JavaScript `Math.floor(a / b)` with a
positive literal divisor `b` is embedded as Lean's `Int` division `/` (`Int.ediv`),
which agrees with floor division whenever the divisor is positive; the in-memory
entry cache becomes a `List TimeEntry` and UI-driven operations become functions
on that list.

Components whose source is not part of the repository snapshot (the
`DataManager` class, imported as `./src/data-manager`) are modelled from the
specification; every such definition carries a doc comment starting with
"Modelled from the spec:".
-/

namespace PunchClock

/-- The TimeEntry record from src/src/types.ts: timestamps are epoch
milliseconds, duration is in seconds, `endTime` is `none` while running. -/
structure TimeEntry where
  id : String
  startTime : Int
  endTime : Option Int
  duration : Int
  category : String
  memo : String
  isRunning : Bool
deriving Repr, DecidableEq

/-! ### Duration formatting (src/unnamed/part_000 `formatDuration`, and the
view's private `formatDuration` in src/src/view.ts) -/

/-- The three format selectors of the utility `formatDuration`. -/
inductive DurFormat where
  | short
  | long
  | clock
deriving Repr, DecidableEq

/-- JavaScript `String.prototype.padStart(2, '0')`. -/
def pad2 (s : String) : String :=
  if s.length < 2 then (String.pushn "" '0' (2 - s.length)) ++ s else s

/-- The clamp at the top of the utility `formatDuration`:
`if (seconds < 0) seconds = 0;`. -/
def clampSec (seconds : Int) : Int :=
  if seconds < 0 then 0 else seconds

/-- Body of the utility `formatDuration` (src/unnamed/part_000) after the
negative clamp: `hours = floor(s/3600)`, `minutes = floor((s%3600)/60)`,
`remainingSeconds = floor(s%60)`, then the three format branches. -/
def formatDurationCore (s : Int) (format : DurFormat) : String :=
  match format with
  | .clock =>
      pad2 (toString (s / 3600)) ++ ":" ++ pad2 (toString (s % 3600 / 60)) ++ ":" ++
        pad2 (toString (s % 60))
  | .long =>
      String.intercalate " "
        ((if s / 3600 > 0 then
            [toString (s / 3600) ++ " hour" ++ (if s / 3600 ≠ 1 then "s" else "")]
          else []) ++
         (if s % 3600 / 60 > 0 then
            [toString (s % 3600 / 60) ++ " minute" ++ (if s % 3600 / 60 ≠ 1 then "s" else "")]
          else []) ++
         (if s < 60 ∧ s / 3600 = 0 then
            [toString (s % 60) ++ " second" ++ (if s % 60 ≠ 1 then "s" else "")]
          else []))
  | .short =>
      if s / 3600 = 0 ∧ s % 3600 / 60 = 0 then toString (s % 60) ++ "s"
      else if s / 3600 = 0 then toString (s % 3600 / 60) ++ "m"
      else toString (s / 3600) ++ "h " ++ toString (s % 3600 / 60) ++ "m"

/-- The utility `formatDuration` from src/unnamed/part_000: clamp negative
inputs to zero, then format. -/
def formatDuration (seconds : Int) (format : DurFormat) : String :=
  formatDurationCore (clampSec seconds) format

/-- The view's private `formatDuration` (src/src/view.ts lines 994-1002):
inputs below 60 print as raw seconds; otherwise hours/minutes branches. -/
def viewFormatDuration (seconds : Int) : String :=
  if seconds < 60 then toString seconds ++ "s"
  else if seconds / 3600 = 0 then toString (seconds % 3600 / 60) ++ "m"
  else toString (seconds / 3600) ++ "h " ++ toString (seconds % 3600 / 60) ++ "m"

/-! ### Live elapsed-time computation (C3) -/

/-- From src/src/modal.ts `TimerModal.updateElapsedTime`:
`elapsedSeconds = activeTimer.duration + Math.floor((now - startTime) / 1000)`. -/
def modalElapsedSeconds (e : TimeEntry) (now : Int) : Int :=
  e.duration + (now - e.startTime) / 1000

/-- From src/src/view.ts `PunchClockView.refreshView` (lines 601-609):
`elapsedSeconds = Math.floor((now - startTime) / 1000) + duration`. -/
def refreshViewElapsedSeconds (e : TimeEntry) (now : Int) : Int :=
  (now - e.startTime) / 1000 + e.duration

/-- From src/src/view.ts `PunchClockView.updateRunningTimer` (lines 1170-1182):
`elapsedSeconds = Math.floor((now - startTime) / 1000) + duration`. -/
def updateRunningTimerElapsedSeconds (e : TimeEntry) (now : Int) : Int :=
  (now - e.startTime) / 1000 + e.duration

/-- Modelled from the spec: the live elapsed time of a running entry is
"`duration + (now - startTime)/1000` truncated to whole seconds" (§3). -/
def liveElapsedSpec (e : TimeEntry) (now : Int) : Int :=
  e.duration + (now - e.startTime) / 1000

/-! ### Entry creation (C5) -/

/-- From src/main.ts `startQuickTimer` (lines 164-177): the new entry literal. -/
def quickTimerEntry (now : Int) (defaultCategory : String) : TimeEntry :=
  { id := toString now, startTime := now, endTime := none, duration := 0,
    category := defaultCategory, memo := "", isRunning := true }

/-- From src/src/modal.ts `TimerModal.startTimer` (new-entry branch, lines
124-137): the new entry literal. -/
def modalStartEntry (now : Int) (category memo : String) : TimeEntry :=
  { id := toString now, startTime := now, endTime := none, duration := 0,
    category := category, memo := memo, isRunning := true }

/-- From src/src/view.ts `StartTimerModal.startTimer` (lines 286-310): the new
entry literal. -/
def viewStartEntry (now : Int) (category memo : String) : TimeEntry :=
  { id := toString now, startTime := now, endTime := none, duration := 0,
    category := category, memo := memo, isRunning := true }

/-- From src/src/view.ts `PunchClockView.continueTimer` (lines 1118-1150): the
new entry copies category and memo from the continued entry. -/
def continueTimerEntry (now : Int) (prev : TimeEntry) : TimeEntry :=
  { id := toString now, startTime := now, endTime := none, duration := 0,
    category := prev.category, memo := prev.memo, isRunning := true }

/-! ### Category-list parsing in the settings tab (C7) -/

/-- JavaScript `String.prototype.split(',')` on the character list. -/
def splitOnComma : List Char → List (List Char)
  | [] => [[]]
  | c :: cs =>
      if c = ',' then [] :: splitOnComma cs
      else
        match splitOnComma cs with
        | [] => [[c]]
        | f :: rest => (c :: f) :: rest

/-- Whitespace recognized by JavaScript `String.prototype.trim` (the ASCII
part, which is all that reaches the categories field). -/
def isJsWS (c : Char) : Bool :=
  c = ' ' || c = '\t' || c = '\n' || c = '\r'

/-- JavaScript `String.prototype.trim` on the character list. -/
def trimJS (l : List Char) : List Char :=
  ((l.dropWhile isJsWS).reverse.dropWhile isJsWS).reverse

/-- From src/unnamed/part_001 `PunchClockSettingTab.display`, the categories
`onChange` handler: `value.split(',').map(c => c.trim()).filter(c => c.length > 0)`. -/
def parseCategoriesInput (value : String) : List String :=
  (((splitOnComma value.toList).map trimJS).filter
      (fun category => category.length > 0)).map (fun l => String.mk l)

/-! ### Weekly report aggregation (C6) -/

/-- From src/src/view.ts `renderWeeklyView` (lines 831-841): the effective
category key, `entry.category || 'Uncategorized'` (the empty string is falsy). -/
def weeklyCategory (e : TimeEntry) : String :=
  if e.category = "" then "Uncategorized" else e.category

/-- One step of the `entries.forEach` loop of `renderWeeklyView` building the
`categoryBreakdown` object, embedded as a total map with default 0. -/
def weeklyBreakdownStep (acc : String → Int) (e : TimeEntry) : String → Int :=
  fun c => if c = weeklyCategory e then acc c + e.duration else acc c

/-- The `categoryBreakdown` object computed by `renderWeeklyView`. -/
def weeklyBreakdown (entries : List TimeEntry) : String → Int :=
  entries.foldl weeklyBreakdownStep (fun _ => 0)

/-- The `totalDuration` accumulator computed by `renderWeeklyView`. -/
def weeklyTotalDuration (entries : List TimeEntry) : Int :=
  entries.foldl (fun acc e => acc + e.duration) 0

/-! ### Running-timer lifecycle (C1, C2, C4)

The DataManager class (imported from `./src/data-manager`) is not part of the
source snapshot, so its operations are modelled from the specification §4.4/§4.5
and marked as such; the callers (`src/main.ts`, `src/src/modal.ts`) are embedded
from their sources. -/

/-- Modelled from the spec: `stopRunning()` "finalizes the running entry
(compute final duration from elapsed wall-clock time, set endTime=now,
isRunning=false)" (§4.5); the final duration is the live elapsed time
`duration + (now - startTime)/1000` (§3). -/
def finalizeEntry (e : TimeEntry) (now : Int) : TimeEntry :=
  { e with duration := e.duration + (now - e.startTime) / 1000,
           endTime := some now, isRunning := false }

/-- From src/main.ts `checkForRunningTimers` (lines 190-203): with a running
entry present, compute `elapsedSeconds = Math.floor((now - startTime)/1000)`
and force-stop only when `elapsedSeconds > 86400`. Result: (running slot after
the check, finalized entry written by the forced stop, if any); the forced stop
delegates to `stopRunningEntry`, modelled as `finalizeEntry` plus clearing the
slot (spec §4.4/§4.5). -/
def checkForRunningTimers : Option TimeEntry → Int → Option TimeEntry × Option TimeEntry
  | none, _ => (none, none)
  | some e, now =>
      if (now - e.startTime) / 1000 > 86400 then (none, some (finalizeEntry e now))
      else (some e, none)

/-- A concrete persisted running entry used to test the startup check: stored
duration 86401 seconds, startTime 0. -/
def staleDurationEntry : TimeEntry :=
  { id := "0", startTime := 0, endTime := none, duration := 86401,
    category := "Work", memo := "", isRunning := true }

/-- A concrete running entry whose startTime is 25 hours (90000000 ms) before
the observation instant, with stored duration 0. -/
def dayOldEntry : TimeEntry :=
  { id := "0", startTime := 0, endTime := none, duration := 0,
    category := "Work", memo := "", isRunning := true }

/-- The field assignment performed by the modal's `stopTimer` through
`DataManager.updateEntry`: `{ endTime: now, duration, isRunning: false }`.
The merge-into-existing-entry semantics of `updateEntry` is modelled from the
spec §4.5 ("merges fields into the existing in-memory entry"). -/
def applyStopFields (now duration : Int) (e : TimeEntry) : TimeEntry :=
  { e with endTime := some now, duration := duration, isRunning := false }

/-- Modelled from the spec: `update(id, partialFields)` acts on the in-memory
entry with the given id; on the cache list this applies the merge to the first
entry whose id matches. -/
def updateFirstById (id : String) (f : TimeEntry → TimeEntry) :
    List TimeEntry → List TimeEntry
  | [] => []
  | e :: es => if e.id = id then f e :: es else e :: updateFirstById id f es

/-- From src/src/modal.ts `TimerModal.stopTimer` (lines 150-176): a no-op when
no timer is active or the active timer is not running; otherwise compute
`duration = activeTimer.duration + Math.floor((now - startTime)/1000)`, merge
`{ endTime: now, duration, isRunning: false }` into the entry via
`DataManager.updateEntry`, and clear the active timer. Returns (active timer
after, cache after). -/
def stopTimer : Option TimeEntry → List TimeEntry → Int → Option TimeEntry × List TimeEntry
  | none, cache, _ => (none, cache)
  | some t, cache, now =>
      if t.isRunning = false then (some t, cache)
      else
        (none, updateFirstById t.id
          (applyStopFields now (t.duration + (now - t.startTime) / 1000)) cache)

/-- Number of entries currently marked running in the cache. -/
def countRunning (cache : List TimeEntry) : Nat :=
  cache.countP (fun e => e.isRunning)

/-- From src/main.ts `startQuickTimer` and src/src/modal.ts `startTimer`:
`getRunningEntry()` is a scan for an `isRunning` entry (spec §4.5). -/
def hasRunning (cache : List TimeEntry) : Bool :=
  cache.any (fun e => e.isRunning)

/-- The first running entry of the cache, as returned by `getRunningEntry()`. -/
def runningEntry? (cache : List TimeEntry) : Option TimeEntry :=
  cache.find? (fun e => e.isRunning)

/-- Modelled from the spec: `stopRunning()` finalizes the running entry and
updates memory (§4.5). On the cache this finalizes every entry marked running
(by the invariant there is at most one). -/
def stopRunningInCache (cache : List TimeEntry) (now : Int) : List TimeEntry :=
  cache.map (fun e => if e.isRunning then finalizeEntry e now else e)

/-- Modelled from the spec: `add(entry)` "appends to memory, delegates durable
write, re-sorts" by startTime (§4.5). -/
def addEntryCache (e : TimeEntry) (cache : List TimeEntry) : List TimeEntry :=
  List.insertionSort (fun a b => a.startTime ≤ b.startTime) (cache ++ [e])

/-- The user-facing timer operations whose sequences the single-active-timer
invariant quantifies over: quick start (src/main.ts `startQuickTimer`), modal
start (src/src/modal.ts `startTimer`, new-entry branch), stop via
`stopRunningEntry` (src/main.ts `stopCurrentTimer`), stop via the modal
(`stopTimer`), and cancel (src/src/modal.ts `cancelTimer`, which deletes the
active entry). -/
inductive TimerOp where
  | startQuick (now : Int) (defaultCategory : String)
  | startModal (now : Int) (category memo : String)
  | stopCurrent (now : Int)
  | stopModal (now : Int)
  | cancel
deriving Repr, DecidableEq

/-- One step of the timer state machine on the entry cache, following the
sources of each operation: both start operations first stop any running entry
("Stop any running timers" in `startQuickTimer`/`startTimer`) and then add a
fresh running entry; the stops and cancel only clear or remove. `deleteEntry`
is modelled from the spec §4.3/§4.5 as removal by id. -/
def stepOp (cache : List TimeEntry) (op : TimerOp) : List TimeEntry :=
  match op with
  | .startQuick now cat =>
      addEntryCache (quickTimerEntry now cat)
        (if hasRunning cache then stopRunningInCache cache now else cache)
  | .startModal now cat memo =>
      addEntryCache (modalStartEntry now cat memo)
        (if hasRunning cache then stopRunningInCache cache now else cache)
  | .stopCurrent now =>
      if hasRunning cache then stopRunningInCache cache now else cache
  | .stopModal now =>
      match runningEntry? cache with
      | none => cache
      | some t =>
          updateFirstById t.id
            (applyStopFields now (t.duration + (now - t.startTime) / 1000)) cache
  | .cancel =>
      match runningEntry? cache with
      | none => cache
      | some t => cache.filter (fun e => e.id ≠ t.id)

/-- Runs a sequence of timer operations from the empty startup cache. -/
def runOps (ops : List TimerOp) : List TimeEntry :=
  ops.foldl stepOp []

/-! ### Decimal digit rendering and parsing (C8 helper layer) -/

/-- Maps 0-9 to the corresponding ASCII digit character. -/
def digitChar (n : Nat) : Char :=
  if n = 0 then '0' else if n = 1 then '1' else if n = 2 then '2' else if n = 3 then '3'
  else if n = 4 then '4' else if n = 5 then '5' else if n = 6 then '6' else if n = 7 then '7'
  else if n = 8 then '8' else '9'

/-- Numeric value of an ASCII digit character. -/
def digitVal (c : Char) : Nat := c.toNat - 48

/-- Decimal digits of `n`, least significant first (empty for 0). -/
def toDigitsRev (n : Nat) : List Char :=
  if h : n = 0 then [] else digitChar (n % 10) :: toDigitsRev (n / 10)
termination_by n
decreasing_by exact Nat.div_lt_self (Nat.pos_of_ne_zero h) (by norm_num)

/-- Decimal rendering of a natural number, as JavaScript `Number.toString`
prints non-negative integers. -/
def natChars (n : Nat) : List Char :=
  if n = 0 then ['0'] else (toDigitsRev n).reverse

/-- Decimal parsing of a digit list (the numeric part of `Date` re-parsing). -/
def digitsVal (l : List Char) : Nat :=
  l.foldl (fun a c => a * 10 + digitVal c) 0

/-- Left-pads a digit list with zeros to the given width (`padStart(w, '0')`). -/
def padLeftZeros (w : Nat) (l : List Char) : List Char :=
  List.replicate (w - l.length) '0' ++ l

/-! ### Proleptic Gregorian calendar since 1970 (C8 helper layer) -/

/-- Gregorian leap-year rule. -/
def isLeapYear (y : Nat) : Bool :=
  (y % 4 == 0 && y % 100 != 0) || y % 400 == 0

/-- Days in a Gregorian year. -/
def daysInYear (y : Nat) : Nat :=
  if isLeapYear y then 366 else 365

/-- Month lengths of year `y`, January first. -/
def monthLengths (y : Nat) : List Nat :=
  [31, if isLeapYear y then 29 else 28, 31, 30, 31, 30, 31, 31, 30, 31, 30, 31]

/-- Resolves a day count (days since Jan 1 of year `y0`) into (year,
day-of-year) by peeling whole years. -/
def yearFromDays (y0 d : Nat) : Nat × Nat :=
  if _h : d < daysInYear y0 then (y0, d) else yearFromDays (y0 + 1) (d - daysInYear y0)
termination_by d
decreasing_by
  have : 0 < daysInYear y0 := by unfold daysInYear; split <;> omega
  omega

/-- Resolves a day-of-year into (month index from 0, day-of-month from 0)
against a list of month lengths. -/
def monthFromDoy : List Nat → Nat → Nat × Nat
  | [], d => (0, d)
  | len :: rest, d =>
      if d < len then (0, d)
      else ((monthFromDoy rest (d - len)).1 + 1, (monthFromDoy rest (d - len)).2)

/-- Civil date (year, month 1-12, day 1-31) of a day count since 1970-01-01. -/
def civilFromDays (days : Nat) : Nat × Nat × Nat :=
  ((yearFromDays 1970 days).1,
   (monthFromDoy (monthLengths (yearFromDays 1970 days).1) (yearFromDays 1970 days).2).1 + 1,
   (monthFromDoy (monthLengths (yearFromDays 1970 days).1) (yearFromDays 1970 days).2).2 + 1)

/-- Number of days from Jan 1 of year `y0` to Jan 1 of year `y` (0 if `y ≤ y0`). -/
def daysFromTo (y0 y : Nat) : Nat :=
  ((List.range (y - y0)).map (fun i => daysInYear (y0 + i))).sum

/-- Day count since 1970-01-01 of a civil date (year, month 1-12, day 1-31):
the inverse derivation used when decoding re-parses `date + start time`. -/
def daysFromCivil (y m d : Nat) : Nat :=
  daysFromTo 1970 y + ((monthLengths y).take (m - 1)).sum + (d - 1)

/-! ### Separator splitting and CSV field quoting (C8 helper layer) -/

/-- Splitting a character list on a separator, as `String.prototype.split`. -/
def splitOnChar (sep : Char) : List Char → List (List Char)
  | [] => [[]]
  | c :: cs =>
      if c = sep then [] :: splitOnChar sep cs
      else
        match splitOnChar sep cs with
        | [] => [[c]]
        | f :: rest => (c :: f) :: rest

/-- Modelled from the spec: encoding doubles every internal quote character
(§4.1 "internal quote characters doubled"). -/
def escQuotes : List Char → List Char
  | [] => []
  | c :: cs => if c = '"' then '"' :: '"' :: escQuotes cs else c :: escQuotes cs

/-- Modelled from the spec: category and memo fields are wrapped in quotes with
internal quotes doubled (§4.1). -/
def quoteField (l : List Char) : List Char :=
  '"' :: (escQuotes l ++ ['"'])

/-- Modelled from the spec: the quoted-field row tokenizer (§4.1): "a field may
be wrapped in quotes; an internal doubled quote represents one literal quote
character; a comma inside quotes does not terminate the field". `cur` is the
reversed accumulator of the current field, `inQ` the inside-quotes flag. -/
def splitRow : List Char → List Char → Bool → List (List Char)
  | [], cur, _ => [cur.reverse]
  | c :: cs, cur, true =>
      if c = '"' then
        if cs.head? = some '"' then splitRow cs.tail ('"' :: cur) true
        else splitRow cs cur false
      else splitRow cs (c :: cur) true
  | c :: cs, cur, false =>
      if c = ',' then cur.reverse :: splitRow cs [] false
      else if c = '"' then splitRow cs cur true
      else splitRow cs (c :: cur) false
termination_by l _ _ => l.length
decreasing_by
  · simp only [List.length_cons]
    have := List.length_tail cs
    omega
  all_goals simp only [List.length_cons]; omega

/-! ### The row codec (C8). Modelled from the spec (§4.1, §6): the CSV codec
lives in `DataManager` (`./src/data-manager`), which is absent from the source
snapshot. -/

/-- Day count since the epoch of an epoch-millisecond timestamp. -/
def msDays (t : Nat) : Nat := t / 86400000

/-- Second-of-day of an epoch-millisecond timestamp. -/
def msSod (t : Nat) : Nat := t % 86400000 / 1000

/-- Modelled from the spec: the `Date` field, `YYYY-MM-DD` (§6), of the day
holding the epoch-ms timestamp `t`. -/
def dateChars (t : Nat) : List Char :=
  padLeftZeros 4 (natChars (civilFromDays (msDays t)).1) ++
    '-' :: (padLeftZeros 2 (natChars (civilFromDays (msDays t)).2.1) ++
    '-' :: padLeftZeros 2 (natChars (civilFromDays (msDays t)).2.2))

/-- Modelled from the spec: a time field, `HH:mm:ss` (§6), of a second-of-day. -/
def timeChars (sod : Nat) : List Char :=
  padLeftZeros 2 (natChars (sod / 3600)) ++
    ':' :: (padLeftZeros 2 (natChars (sod % 3600 / 60)) ++
    ':' :: padLeftZeros 2 (natChars (sod % 60)))

/-- Rendering of a hundredths quantity as a 2-decimal number string. -/
def decimalChars (q : Nat) : List Char :=
  natChars (q / 100) ++ '.' :: padLeftZeros 2 (natChars (q % 100))

/-- Modelled from the spec: duration in minutes rounded to 2 decimals (§4.1);
decoding ignores this field. -/
def minutesField (d : Nat) : List Char := decimalChars ((d * 100 + 30) / 60)

/-- Modelled from the spec: duration in hours rounded to 2 decimals (§4.1);
decoding ignores this field. -/
def hoursField (d : Nat) : List Char := decimalChars ((d * 100 + 1800) / 3600)

/-- Modelled from the spec: `encode(entry) -> row` produces the fixed 8-field
row date, start time, end time, duration seconds, duration minutes, duration
hours, quoted category, quoted memo (§4.1). -/
def encodeEntryRow (e : TimeEntry) : List Char :=
  dateChars e.startTime.toNat ++
  ',' :: (timeChars (msSod e.startTime.toNat) ++
  ',' :: (timeChars (msSod (e.endTime.getD 0).toNat) ++
  ',' :: (natChars e.duration.toNat ++
  ',' :: (minutesField e.duration.toNat ++
  ',' :: (hoursField e.duration.toNat ++
  ',' :: (quoteField e.category.toList ++
  ',' :: quoteField e.memo.toList))))))

/-- Modelled from the spec: decoding re-parses the `YYYY-MM-DD` date field back
into a day count (§4.1: the id/timestamp "is recomputed from content"). -/
def parseDateChars (l : List Char) : Nat :=
  daysFromCivil (digitsVal ((splitOnChar '-' l).getD 0 []))
    (digitsVal ((splitOnChar '-' l).getD 1 []))
    (digitsVal ((splitOnChar '-' l).getD 2 []))

/-- Modelled from the spec: decoding re-parses an `HH:mm:ss` field back into a
second-of-day. -/
def parseTimeChars (l : List Char) : Nat :=
  digitsVal ((splitOnChar ':' l).getD 0 []) * 3600 +
  digitsVal ((splitOnChar ':' l).getD 1 []) * 60 +
  digitsVal ((splitOnChar ':' l).getD 2 [])

/-- The epoch-ms start timestamp recomputed from the date and start-time fields. -/
def decodedStartMs (fields : List (List Char)) : Nat :=
  parseDateChars (fields.getD 0 []) * 86400000 + parseTimeChars (fields.getD 1 []) * 1000

/-- The epoch-ms end timestamp recomputed from the date and end-time fields. -/
def decodedEndMs (fields : List (List Char)) : Nat :=
  parseDateChars (fields.getD 0 []) * 86400000 + parseTimeChars (fields.getD 2 []) * 1000

/-- Modelled from the spec: the entry built from a decoded field list — field
count ≥ 8 puts category at index 6 and memo at index 7, otherwise the legacy
layout uses indices 4 and 5 (§4.1); duration seconds is field 3; the id is the
decimal string of the recomputed start timestamp. -/
def decodedEntry (fields : List (List Char)) : TimeEntry :=
  { id := String.mk (natChars (decodedStartMs fields)),
    startTime := (decodedStartMs fields : Int),
    endTime := some ((decodedEndMs fields : Int)),
    duration := (digitsVal (fields.getD 3 []) : Int),
    category := String.mk (if 8 ≤ fields.length then fields.getD 6 [] else fields.getD 4 []),
    memo := String.mk (if 8 ≤ fields.length then fields.getD 7 [] else fields.getD 5 []),
    isRunning := false }

/-- Modelled from the spec: `decode(row) -> entry | skip` — rows with fewer
than 5 fields are skipped (§4.1). -/
def decodeEntryRow (row : List Char) : Option TimeEntry :=
  if (splitRow row [] false).length < 5 then none
  else some (decodedEntry (splitRow row [] false))

/-- A concrete finalized entry whose category and memo contain commas and
quote characters: startTime 1970-01-01T00:00:01Z, endTime one minute later. -/
def sampleEntry : TimeEntry :=
  { id := "1000", startTime := 1000, endTime := some 61000, duration := 60,
    category := "Work, \"A\"", memo := "memo, with \"quotes\"", isRunning := false }

end PunchClock

namespace PunchClock

/-! ## Theorems -/

/-- C9: for every negative seconds input and every format, the utility
`formatDuration` returns the same string as `formatDuration` applied to `0`
with that format — negative durations are clamped to zero by the first line of
the function. -/
theorem formatDuration_neg_eq_zero (s : Int) (h : s < 0) (f : DurFormat) :
    formatDuration s f = formatDuration 0 f := by
  unfold formatDuration
  have h1 : clampSec s = clampSec 0 := by
    unfold clampSec
    rw [if_pos h, if_neg (by omega)]
  rw [h1]

/-- Witness for C9 at seconds = -5, format = short. -/
theorem formatDuration_neg_eq_zero_witness :
    (-5 : Int) < 0 ∧ formatDuration (-5) DurFormat.short = formatDuration 0 DurFormat.short :=
  ⟨by norm_num, formatDuration_neg_eq_zero (-5) (by norm_num) DurFormat.short⟩

/-- C10: on every non-negative integer input, the view's private
`formatDuration` (src/src/view.ts) agrees with the utility `formatDuration`
in 'short' format (src/unnamed/part_000): the two independent implementations
coincide. -/
theorem viewFormatDuration_eq_short (s : Int) (h : 0 ≤ s) :
    viewFormatDuration s = formatDuration s DurFormat.short := by
  have hc : clampSec s = s := by
    unfold clampSec
    split <;> omega
  unfold formatDuration
  rw [hc]
  simp only [viewFormatDuration, formatDurationCore]
  by_cases h60 : s < 60
  · rw [if_pos h60, if_pos (show s / 3600 = 0 ∧ s % 3600 / 60 = 0 by omega)]
    have hs : s % 60 = s := by omega
    rw [hs]
  · rw [if_neg h60, if_neg (show ¬(s / 3600 = 0 ∧ s % 3600 / 60 = 0) by
      rintro ⟨h1, h2⟩
      omega)]

/-- Witness for C10 at seconds = 125. -/
theorem viewFormatDuration_eq_short_witness :
    (0 : Int) ≤ 125 ∧ viewFormatDuration 125 = formatDuration 125 DurFormat.short :=
  ⟨by norm_num, viewFormatDuration_eq_short 125 (by norm_num)⟩

/-- C3: all three live elapsed-time computations (the timer modal's
`updateElapsedTime`, the view's `refreshView`, and the view's
`updateRunningTimer`) compute exactly the spec formula
`duration + (now - startTime)/1000` (truncated division). -/
theorem elapsed_seconds_eq_spec (e : TimeEntry) (now : Int) :
    modalElapsedSeconds e now = liveElapsedSpec e now ∧
    refreshViewElapsedSeconds e now = liveElapsedSpec e now ∧
    updateRunningTimerElapsedSeconds e now = liveElapsedSpec e now := by
  unfold modalElapsedSeconds refreshViewElapsedSeconds updateRunningTimerElapsedSeconds
    liveElapsedSpec
  refine ⟨rfl, by ring, by ring⟩

/-- C5: every newly created entry, at each of the four timer-start entry points
(quick timer, timer modal, view start-modal, continue-timer), starts running
with `isRunning = true`, no `endTime`, `duration = 0`, and an id equal to the
decimal string of its start timestamp. -/
theorem new_entries_created_running (now : Int) (cat memo : String) (prev : TimeEntry) :
    ((quickTimerEntry now cat).isRunning = true ∧ (quickTimerEntry now cat).endTime = none ∧
      (quickTimerEntry now cat).duration = 0 ∧
      (quickTimerEntry now cat).id = toString (quickTimerEntry now cat).startTime) ∧
    ((modalStartEntry now cat memo).isRunning = true ∧
      (modalStartEntry now cat memo).endTime = none ∧
      (modalStartEntry now cat memo).duration = 0 ∧
      (modalStartEntry now cat memo).id = toString (modalStartEntry now cat memo).startTime) ∧
    ((viewStartEntry now cat memo).isRunning = true ∧
      (viewStartEntry now cat memo).endTime = none ∧
      (viewStartEntry now cat memo).duration = 0 ∧
      (viewStartEntry now cat memo).id = toString (viewStartEntry now cat memo).startTime) ∧
    ((continueTimerEntry now prev).isRunning = true ∧
      (continueTimerEntry now prev).endTime = none ∧
      (continueTimerEntry now prev).duration = 0 ∧
      (continueTimerEntry now prev).id = toString (continueTimerEntry now prev).startTime) :=
  ⟨⟨rfl, rfl, rfl, rfl⟩, ⟨rfl, rfl, rfl, rfl⟩, ⟨rfl, rfl, rfl, rfl⟩, ⟨rfl, rfl, rfl, rfl⟩⟩

/-- C7 counterexample: the categories `onChange` handler does not deduplicate;
the input "Work, Work" produces the list ["Work", "Work"], which has a repeated
name, so the stored category list is not always duplicate-free. -/
theorem categories_not_unique_counterexample :
    parseCategoriesInput "Work, Work" = ["Work", "Work"] ∧
    ¬ (parseCategoriesInput "Work, Work").Nodup := by
  constructor
  · rfl
  · decide

/-- C7 (amended): after the settings mutation that rewrites the category list,
every stored category name is non-empty (fragments are trimmed and empty ones
dropped), but the list is not guaranteed duplicate-free. -/
theorem categories_elements_nonempty (value : String) (s : String)
    (hs : s ∈ parseCategoriesInput value) : 0 < s.length := by
  unfold parseCategoriesInput at hs
  obtain ⟨l, hl, rfl⟩ := List.mem_map.mp hs
  have hlen := (List.mem_filter.mp hl).2
  simp only [decide_eq_true_eq] at hlen
  simpa [String.length] using hlen

/-- Witness for C7's amended theorem on the input "Work, Personal". -/
theorem categories_elements_nonempty_witness :
    "Work" ∈ parseCategoriesInput "Work, Personal" ∧ 0 < ("Work" : String).length :=
  ⟨by decide, categories_elements_nonempty "Work, Personal" "Work" (by decide)⟩

/-- Helper: the `totalDuration` fold sums the durations. -/
theorem weeklyTotal_foldl_eq (l : List TimeEntry) :
    ∀ a : Int, l.foldl (fun acc e => acc + e.duration) a = a + (l.map (·.duration)).sum := by
  induction l with
  | nil => intro a; simp
  | cons e es ih =>
      intro a
      rw [List.foldl_cons, ih, List.map_cons, List.sum_cons]
      ring

/-- Helper: the `categoryBreakdown` fold sums durations per effective category. -/
theorem weeklyBreakdown_foldl_eq (l : List TimeEntry) :
    ∀ (acc : String → Int) (c : String),
      (l.foldl weeklyBreakdownStep acc) c =
        acc c + ((l.filter (fun e => weeklyCategory e = c)).map (·.duration)).sum := by
  induction l with
  | nil => intro acc c; simp
  | cons e es ih =>
      intro acc c
      rw [List.foldl_cons, ih]
      by_cases hc : weeklyCategory e = c
      · have hc2 : c = weeklyCategory e := hc.symm
        rw [List.filter_cons_of_pos (by simp [hc])]
        simp only [weeklyBreakdownStep, if_pos hc2, List.map_cons, List.sum_cons]
        ring
      · have hc2 : ¬ c = weeklyCategory e := fun hh => hc hh.symm
        rw [List.filter_cons_of_neg (by simp [hc])]
        simp only [weeklyBreakdownStep, if_neg hc2]

/-- C6: in the weekly aggregation, `totalDuration` is the sum of all entry
durations, and `categoryBreakdown` maps each category name to the sum of
durations of the entries bearing it, where an entry with empty category counts
under "Uncategorized" (`weeklyCategory`). -/
theorem weekly_report_totals (entries : List TimeEntry) :
    weeklyTotalDuration entries = (entries.map (·.duration)).sum ∧
    ∀ c : String, weeklyBreakdown entries c =
      ((entries.filter (fun e => weeklyCategory e = c)).map (·.duration)).sum := by
  constructor
  · simpa [weeklyTotalDuration] using weeklyTotal_foldl_eq entries 0
  · intro c
    simpa [weeklyBreakdown] using weeklyBreakdown_foldl_eq entries (fun _ => 0) c

/-- C2 counterexample: the startup check ignores the stored duration. For a
persisted running entry with stored duration 86401 s observed at `now = 0`
(zero wall-clock elapsed), the claim's quantity `(now - startTime)/1000 +
duration` exceeds 86400, yet `checkForRunningTimers` leaves the entry running
in the slot instead of force-stopping it. -/
theorem startup_safeguard_counterexample :
    ((0 : Int) - staleDurationEntry.startTime) / 1000 + staleDurationEntry.duration > 86400 ∧
    (checkForRunningTimers (some staleDurationEntry) 0).1 = some staleDurationEntry := by
  exact ⟨by decide, by decide⟩

/-- C2 (amended): at startup reconciliation the force-stop triggers exactly
when `Math.floor((now - startTime)/1000) > 86400` — the stored duration is not
added to the tested quantity. When it triggers, the entry is finalized (not
running, `endTime = now`, duration increased by the elapsed seconds) and the
running slot is cleared; otherwise the slot is untouched. -/
theorem startup_safeguard (e : TimeEntry) (now : Int) :
    ((now - e.startTime) / 1000 > 86400 →
      (checkForRunningTimers (some e) now).1 = none ∧
      ∃ f, (checkForRunningTimers (some e) now).2 = some f ∧ f.id = e.id ∧
        f.isRunning = false ∧ f.endTime = some now ∧
        f.duration = e.duration + (now - e.startTime) / 1000) ∧
    (¬ (now - e.startTime) / 1000 > 86400 →
      checkForRunningTimers (some e) now = (some e, none)) := by
  constructor
  · intro h
    simp only [checkForRunningTimers]
    rw [if_pos h]
    exact ⟨rfl, finalizeEntry e now, rfl, rfl, rfl, rfl, rfl⟩
  · intro h
    simp only [checkForRunningTimers]
    rw [if_neg h]

/-- Witness for C2's amended theorem: a running entry whose startTime is 25
hours (90000000 ms) in the past is force-stopped with final duration 90000
seconds and the slot cleared. -/
theorem startup_safeguard_witness :
    (checkForRunningTimers (some dayOldEntry) 90000000).1 = none ∧
    ∃ f, (checkForRunningTimers (some dayOldEntry) 90000000).2 = some f ∧
      f.isRunning = false ∧ f.endTime = some 90000000 ∧ f.duration = 90000 := by
  obtain ⟨h1, f, h2, _, h4, h5, h6⟩ :=
    (startup_safeguard dayOldEntry 90000000).1 (by decide)
  exact ⟨h1, f, h2, h4, h5, by rw [h6]; decide⟩

/-- Helper: applying an update to the first id-match hits the entry itself when
the id determines the entry in the cache. -/
theorem updateFirstById_mem_of_unique (f : TimeEntry → TimeEntry) :
    ∀ (cache : List TimeEntry) (t : TimeEntry), t ∈ cache →
      (∀ x ∈ cache, x.id = t.id → x = t) → f t ∈ updateFirstById t.id f cache := by
  intro cache
  induction cache with
  | nil => intro t ht; exact absurd ht (List.not_mem_nil t)
  | cons e es ih =>
      intro t ht huniq
      unfold updateFirstById
      by_cases he : e.id = t.id
      · rw [if_pos he, huniq e (List.mem_cons_self e es) he]
        exact List.mem_cons_self _ _
      · rw [if_neg he]
        have ht' : t ∈ es := by
          rcases List.mem_cons.mp ht with h | h
          · subst h
            exact absurd rfl he
          · exact h
        exact List.mem_cons_of_mem e
          (ih t ht' (fun x hx hxid => huniq x (List.mem_cons_of_mem e hx) hxid))

/-- C4: stopping the running timer at instant `now` finalizes the active entry
in the cache with `isRunning = false`, `endTime = now`, and final duration
equal to the stored duration plus the truncated elapsed seconds; with no
active timer, or an active timer that is not running, `stopTimer` is a no-op. -/
theorem stop_timer_finalizes :
    (∀ cache now, stopTimer none cache now = (none, cache)) ∧
    (∀ t cache now, t.isRunning = false → stopTimer (some t) cache now = (some t, cache)) ∧
    (∀ t cache now, t.isRunning = true → t ∈ cache →
      (∀ x ∈ cache, x.id = t.id → x = t) →
      (stopTimer (some t) cache now).1 = none ∧
      ∃ e, e ∈ (stopTimer (some t) cache now).2 ∧ e.id = t.id ∧ e.isRunning = false ∧
        e.endTime = some now ∧ e.duration = t.duration + (now - t.startTime) / 1000) := by
  refine ⟨fun cache now => rfl, fun t cache now h => ?_, fun t cache now h ht huniq => ?_⟩
  · simp only [stopTimer]
    rw [if_pos h]
  · simp only [stopTimer]
    rw [if_neg (by simp [h])]
    refine ⟨rfl, applyStopFields now (t.duration + (now - t.startTime) / 1000) t,
      updateFirstById_mem_of_unique _ cache t ht huniq, rfl, rfl, rfl, rfl⟩

/-- Witness for C4: stopping a concrete running timer at now = 5000 ms. -/
theorem stop_timer_finalizes_witness :
    (stopTimer (some dayOldEntry) [dayOldEntry] 5000).1 = none ∧
    ∃ e, e ∈ (stopTimer (some dayOldEntry) [dayOldEntry] 5000).2 ∧ e.id = dayOldEntry.id ∧
      e.isRunning = false ∧ e.endTime = some 5000 ∧
      e.duration = dayOldEntry.duration + (5000 - dayOldEntry.startTime) / 1000 :=
  stop_timer_finalizes.2.2 dayOldEntry [dayOldEntry] 5000 (by decide) (by decide) (by decide)

/-- Helper: after `stopRunningInCache` no entry is marked running. -/
theorem countRunning_stopRunningInCache (cache : List TimeEntry) (now : Int) :
    countRunning (stopRunningInCache cache now) = 0 := by
  induction cache with
  | nil => rfl
  | cons e es ih =>
      unfold stopRunningInCache at ih ⊢
      rw [List.map_cons]
      unfold countRunning at ih ⊢
      rw [List.countP_cons, ih]
      by_cases he : e.isRunning
      · simp [he, finalizeEntry]
      · simp [he]

/-- Helper: adding an entry changes the running count by its own flag. -/
theorem countRunning_addEntryCache (e : TimeEntry) (cache : List TimeEntry) :
    countRunning (addEntryCache e cache) =
      countRunning cache + (if e.isRunning then 1 else 0) := by
  unfold addEntryCache countRunning
  rw [(List.perm_insertionSort _ _).countP_eq, List.countP_append]
  simp [List.countP_cons]

/-- Helper: a cache with no running entry has running count zero. -/
theorem countRunning_eq_zero_of_not_hasRunning (cache : List TimeEntry)
    (h : hasRunning cache = false) : countRunning cache = 0 := by
  unfold hasRunning at h
  unfold countRunning
  rw [List.countP_eq_zero]
  intro a ha
  rw [List.any_eq_false] at h
  simpa using h a ha

/-- Helper: the modal stop update never increases the running count. -/
theorem countRunning_updateStop_le (id : String) (now d : Int) :
    ∀ cache : List TimeEntry,
      countRunning (updateFirstById id (applyStopFields now d) cache) ≤ countRunning cache := by
  intro cache
  induction cache with
  | nil => exact Nat.le_refl _
  | cons e es ih =>
      unfold updateFirstById
      by_cases he : e.id = id
      · rw [if_pos he]
        unfold countRunning at *
        rw [List.countP_cons, List.countP_cons]
        simp only [applyStopFields]
        have h0 : (if (false : Bool) = true then (1 : Nat) else 0) = 0 := rfl
        rw [h0]
        omega
      · rw [if_neg he]
        unfold countRunning at *
        rw [List.countP_cons, List.countP_cons]
        omega

/-- Helper: removal by id never increases the running count. -/
theorem countRunning_filter_le (p : TimeEntry → Bool) (cache : List TimeEntry) :
    countRunning (cache.filter p) ≤ countRunning cache := by
  unfold countRunning
  exact (List.filter_sublist cache).countP_le _

/-- Helper: every timer operation preserves the at-most-one-running invariant. -/
theorem countRunning_stepOp (cache : List TimeEntry) (op : TimerOp)
    (h : countRunning cache ≤ 1) : countRunning (stepOp cache op) ≤ 1 := by
  have hzero : ∀ now : Int,
      countRunning (if hasRunning cache then stopRunningInCache cache now else cache) = 0 := by
    intro now
    by_cases hr : hasRunning cache
    · rw [if_pos hr]
      exact countRunning_stopRunningInCache cache now
    · rw [if_neg hr]
      exact countRunning_eq_zero_of_not_hasRunning cache (by simpa using hr)
  cases op with
  | startQuick now cat =>
      unfold stepOp
      rw [countRunning_addEntryCache, hzero now]
      simp [quickTimerEntry]
  | startModal now cat memo =>
      unfold stepOp
      rw [countRunning_addEntryCache, hzero now]
      simp [modalStartEntry]
  | stopCurrent now =>
      unfold stepOp
      rw [hzero now]
      omega
  | stopModal now =>
      unfold stepOp
      cases hru : runningEntry? cache with
      | none => exact h
      | some t => exact Nat.le_trans (countRunning_updateStop_le t.id now _ cache) h
  | cancel =>
      unfold stepOp
      cases hru : runningEntry? cache with
      | none => exact h
      | some t => exact Nat.le_trans (countRunning_filter_le _ cache) h

/-- Helper: the invariant is preserved along any operation sequence. -/
theorem countRunning_foldl_le (ops : List TimerOp) :
    ∀ cache, countRunning cache ≤ 1 → countRunning (ops.foldl stepOp cache) ≤ 1 := by
  induction ops with
  | nil => intro c h; exact h
  | cons op rest ih => intro c h; exact ih _ (countRunning_stepOp c op h)

/-- C1: along every sequence of start/stop/cancel operations from startup, at
most one cache entry has `isRunning = true`; and starting a new timer while an
entry `r` is running auto-resolves by first stopping `r` (the resulting cache
contains `r` finalized: same id, not running, `endTime = now`) — the step
function is total, so no start ever fails. -/
theorem single_active_timer :
    (∀ ops : List TimerOp, countRunning (runOps ops) ≤ 1) ∧
    (∀ (cache : List TimeEntry) (now : Int) (cat : String) (r : TimeEntry),
      r ∈ cache → r.isRunning = true →
      ∃ e, e ∈ stepOp cache (TimerOp.startQuick now cat) ∧ e.id = r.id ∧
        e.isRunning = false ∧ e.endTime = some now) := by
  constructor
  · intro ops
    exact countRunning_foldl_le ops [] (by simp [countRunning])
  · intro cache now cat r hr hrun
    have hhas : hasRunning cache = true := by
      unfold hasRunning
      rw [List.any_eq_true]
      exact ⟨r, hr, by simp [hrun]⟩
    refine ⟨finalizeEntry r now, ?_, rfl, rfl, rfl⟩
    unfold stepOp
    rw [hhas]
    have hmem : finalizeEntry r now ∈ stopRunningInCache cache now := by
      unfold stopRunningInCache
      exact List.mem_map.mpr ⟨r, hr, by simp [hrun]⟩
    unfold addEntryCache
    rw [(List.perm_insertionSort _ _).mem_iff]
    exact List.mem_append_left _ hmem

/-- Witness for C1's auto-resolution clause on a concrete one-entry cache. -/
theorem single_active_timer_witness :
    ∃ e, e ∈ stepOp [dayOldEntry] (TimerOp.startQuick 9000 "Work") ∧ e.id = dayOldEntry.id ∧
      e.isRunning = false ∧ e.endTime = some 9000 :=
  single_active_timer.2 [dayOldEntry] 9000 "Work" dayOldEntry (by decide) (by decide)

theorem digitVal_digitChar {r : Nat} (h : r < 10) : digitVal (digitChar r) = r := by
  interval_cases r <;> rfl

theorem digitChar_isDigit {r : Nat} (h : r < 10) : (digitChar r).isDigit = true := by
  interval_cases r <;> rfl

theorem toDigitsRev_foldl : ∀ n a,
    (toDigitsRev n).reverse.foldl (fun acc c => acc * 10 + digitVal c) a =
      a * 10 ^ (toDigitsRev n).length + n := by
  intro n
  induction n using Nat.strong_induction_on with
  | _ n ih =>
    intro a
    by_cases h : n = 0
    · subst h
      rw [toDigitsRev]
      simp
    · rw [toDigitsRev, dif_neg h, List.reverse_cons, List.foldl_append,
        ih (n / 10) (Nat.div_lt_self (Nat.pos_of_ne_zero h) (by norm_num)) a]
      rw [List.foldl_cons, List.foldl_nil, digitVal_digitChar (Nat.mod_lt n (by norm_num)),
        List.length_cons, pow_succ]
      generalize 10 ^ (toDigitsRev (n / 10)).length = K
      have hx : n / 10 * 10 + n % 10 = n := by omega
      calc (a * K + n / 10) * 10 + n % 10 = a * (K * 10) + (n / 10 * 10 + n % 10) := by ring
        _ = a * (K * 10) + n := by rw [hx]

theorem digitsVal_natChars (n : Nat) : digitsVal (natChars n) = n := by
  by_cases h : n = 0
  · subst h; rfl
  · unfold natChars digitsVal
    rw [if_neg h, toDigitsRev_foldl n 0]
    simp

theorem digitsVal_padLeftZeros (w : Nat) (l : List Char) :
    digitsVal (padLeftZeros w l) = digitsVal l := by
  unfold padLeftZeros digitsVal
  rw [List.foldl_append]
  have hz : ∀ k, (List.replicate k '0').foldl (fun a c => a * 10 + digitVal c) 0 = 0 := by
    intro k
    induction k with
    | zero => rfl
    | succ k ih => rw [List.replicate_succ, List.foldl_cons]; simpa using ih
  rw [hz]

theorem mem_natChars_isDigit {c : Char} {n : Nat} (h : c ∈ natChars n) : c.isDigit = true := by
  unfold natChars at h
  by_cases h0 : n = 0
  · rw [if_pos h0] at h
    simp at h
    subst h; rfl
  · rw [if_neg h0, List.mem_reverse] at h
    clear h0
    induction n using Nat.strong_induction_on with
    | _ n ih =>
      rw [toDigitsRev] at h
      by_cases hz : n = 0
      · rw [dif_pos hz] at h; simp at h
      · rw [dif_neg hz] at h
        rcases List.mem_cons.mp h with h1 | h1
        · subst h1; exact digitChar_isDigit (Nat.mod_lt n (by norm_num))
        · exact ih (n / 10) (Nat.div_lt_self (Nat.pos_of_ne_zero hz) (by norm_num)) h1

theorem mem_padLeftZeros_isDigit {c : Char} {w : Nat} {l : List Char}
    (hl : ∀ x ∈ l, x.isDigit = true) (h : c ∈ padLeftZeros w l) : c.isDigit = true := by
  unfold padLeftZeros at h
  rcases List.mem_append.mp h with h1 | h1
  · rw [List.eq_of_mem_replicate h1]; rfl
  · exact hl c h1

theorem isDigit_ne_seps {c : Char} (h : c.isDigit = true) :
    c ≠ ',' ∧ c ≠ '"' ∧ c ≠ '-' ∧ c ≠ ':' ∧ c ≠ '.' := by
  refine ⟨?_, ?_, ?_, ?_, ?_⟩ <;> rintro rfl <;> exact absurd h (by decide)

theorem daysInYear_pos (y : Nat) : 0 < daysInYear y := by
  unfold daysInYear; split <;> omega

theorem daysFromTo_self (y0 : Nat) : daysFromTo y0 y0 = 0 := by
  simp [daysFromTo]

theorem daysFromTo_succ_left (y0 y : Nat) (h : y0 < y) :
    daysFromTo y0 y = daysInYear y0 + daysFromTo (y0 + 1) y := by
  unfold daysFromTo
  have hy : y - y0 = (y - (y0 + 1)) + 1 := by omega
  rw [hy, List.range_succ_eq_map, List.map_cons, List.sum_cons, List.map_map]
  have hf : ((fun i => daysInYear (y0 + i)) ∘ Nat.succ) = (fun i => daysInYear (y0 + 1 + i)) := by
    funext i
    simp only [Function.comp]
    congr 1
    omega
  rw [hf]
  norm_num

theorem yearFromDays_inv : ∀ (d y0 : Nat),
    daysFromTo y0 (yearFromDays y0 d).1 + (yearFromDays y0 d).2 = d ∧
    (yearFromDays y0 d).2 < daysInYear (yearFromDays y0 d).1 ∧
    y0 ≤ (yearFromDays y0 d).1 := by
  intro d
  induction d using Nat.strong_induction_on with
  | _ d ih =>
    intro y0
    by_cases h : d < daysInYear y0
    · rw [yearFromDays, dif_pos h]
      exact ⟨by simpa using daysFromTo_self y0, h, Nat.le_refl y0⟩
    · have hpos := daysInYear_pos y0
      have hlt : d - daysInYear y0 < d := by omega
      obtain ⟨h1, h2, h3⟩ := ih (d - daysInYear y0) hlt (y0 + 1)
      rw [yearFromDays, dif_neg h]
      refine ⟨?_, h2, by omega⟩
      rw [daysFromTo_succ_left y0 _ (by omega)]
      omega

theorem monthFromDoy_inv : ∀ (L : List Nat) (d : Nat), d < L.sum →
    (L.take (monthFromDoy L d).1).sum + (monthFromDoy L d).2 = d ∧
    (monthFromDoy L d).1 < L.length := by
  intro L
  induction L with
  | nil => intro d hd; simp at hd
  | cons len rest ih =>
      intro d hd
      rw [List.sum_cons] at hd
      by_cases h : d < len
      · rw [monthFromDoy, if_pos h]
        simp
      · rw [monthFromDoy, if_neg h]
        obtain ⟨h1, h2⟩ := ih (d - len) (by omega)
        refine ⟨?_, by simpa using h2⟩
        rw [List.take_succ_cons, List.sum_cons]
        omega

theorem monthLengths_sum (y : Nat) : (monthLengths y).sum = daysInYear y := by
  unfold monthLengths daysInYear
  cases h : isLeapYear y <;> simp

theorem daysFromCivil_civilFromDays (days : Nat) :
    daysFromCivil (civilFromDays days).1 (civilFromDays days).2.1 (civilFromDays days).2.2 =
      days := by
  obtain ⟨h1, h2, _⟩ := yearFromDays_inv days 1970
  obtain ⟨h4, _⟩ := monthFromDoy_inv (monthLengths (yearFromDays 1970 days).1)
    (yearFromDays 1970 days).2 (by rw [monthLengths_sum]; exact h2)
  unfold civilFromDays daysFromCivil
  simp only [Nat.add_sub_cancel]
  omega

theorem splitOnChar_append_sep (sep : Char) :
    ∀ (a b : List Char), (∀ c ∈ a, c ≠ sep) →
      splitOnChar sep (a ++ sep :: b) = a :: splitOnChar sep b := by
  intro a
  induction a with
  | nil =>
      intro b _
      rw [List.nil_append, splitOnChar, if_pos rfl]
  | cons c a' ih =>
      intro b hfree
      have hc : c ≠ sep := hfree c (List.mem_cons_self c a')
      rw [List.cons_append, splitOnChar, if_neg hc,
        ih b (fun x hx => hfree x (List.mem_cons_of_mem c hx))]

theorem splitOnChar_sep_free (sep : Char) :
    ∀ (a : List Char), (∀ c ∈ a, c ≠ sep) → splitOnChar sep a = [a] := by
  intro a
  induction a with
  | nil => intro _; rfl
  | cons c a' ih =>
      intro hfree
      have hc : c ≠ sep := hfree c (List.mem_cons_self c a')
      rw [splitOnChar, if_neg hc, ih (fun x hx => hfree x (List.mem_cons_of_mem c hx))]

theorem splitRow_plain_field :
    ∀ (s : List Char) (cur rest : List Char), (∀ c ∈ s, c ≠ ',' ∧ c ≠ '"') →
      splitRow (s ++ ',' :: rest) cur false =
        (cur.reverse ++ s) :: splitRow rest [] false := by
  intro s
  induction s with
  | nil =>
      intro cur rest _
      rw [List.nil_append, splitRow, if_pos rfl, List.append_nil]
  | cons c s' ih =>
      intro cur rest hfree
      obtain ⟨hc1, hc2⟩ := hfree c (List.mem_cons_self c s')
      rw [List.cons_append, splitRow, if_neg hc1, if_neg hc2,
        ih (c :: cur) rest (fun x hx => hfree x (List.mem_cons_of_mem c hx)),
        List.reverse_cons, List.append_assoc, List.singleton_append]

theorem splitRow_in_quotes :
    ∀ (s : List Char) (cur rest : List Char), rest.head? ≠ some '"' →
      splitRow (escQuotes s ++ '"' :: rest) cur true =
        splitRow rest (s.reverse ++ cur) false := by
  intro s
  induction s with
  | nil =>
      intro cur rest hrest
      rw [escQuotes, List.nil_append, splitRow, if_pos rfl, if_neg hrest,
        List.reverse_nil, List.nil_append]
  | cons c s' ih =>
      intro cur rest hrest
      by_cases hc : c = '"'
      · subst hc
        rw [escQuotes, if_pos rfl, List.cons_append, List.cons_append, splitRow, if_pos rfl,
          if_pos (by rw [List.head?_cons]), List.tail_cons,
          ih ('"' :: cur) rest hrest, List.reverse_cons, List.append_assoc,
          List.singleton_append]
      · rw [escQuotes, if_neg hc, List.cons_append, splitRow, if_neg hc,
          ih (c :: cur) rest hrest, List.reverse_cons, List.append_assoc,
          List.singleton_append]

theorem padNat_digits (w n : Nat) :
    ∀ c ∈ padLeftZeros w (natChars n), c.isDigit = true :=
  fun _ hc => mem_padLeftZeros_isDigit (fun _ hx => mem_natChars_isDigit hx) hc

theorem dateChars_plain (t : Nat) : ∀ c ∈ dateChars t, c ≠ ',' ∧ c ≠ '"' := by
  intro c hc
  simp only [dateChars, List.mem_append, List.mem_cons] at hc
  rcases hc with h | h | h | h
  · have := isDigit_ne_seps (padNat_digits 4 _ c h)
    exact ⟨this.1, this.2.1⟩
  · subst h; exact ⟨by decide, by decide⟩
  · have := isDigit_ne_seps (padNat_digits 2 _ c h)
    exact ⟨this.1, this.2.1⟩
  · rcases h with h | h
    · subst h; exact ⟨by decide, by decide⟩
    · have := isDigit_ne_seps (padNat_digits 2 _ c h)
      exact ⟨this.1, this.2.1⟩

theorem timeChars_plain (sod : Nat) : ∀ c ∈ timeChars sod, c ≠ ',' ∧ c ≠ '"' := by
  intro c hc
  simp only [timeChars, List.mem_append, List.mem_cons] at hc
  rcases hc with h | h | h | h
  · have := isDigit_ne_seps (padNat_digits 2 _ c h)
    exact ⟨this.1, this.2.1⟩
  · subst h; exact ⟨by decide, by decide⟩
  · have := isDigit_ne_seps (padNat_digits 2 _ c h)
    exact ⟨this.1, this.2.1⟩
  · rcases h with h | h
    · subst h; exact ⟨by decide, by decide⟩
    · have := isDigit_ne_seps (padNat_digits 2 _ c h)
      exact ⟨this.1, this.2.1⟩

theorem natChars_plain (n : Nat) : ∀ c ∈ natChars n, c ≠ ',' ∧ c ≠ '"' := by
  intro c hc
  have := isDigit_ne_seps (mem_natChars_isDigit hc)
  exact ⟨this.1, this.2.1⟩

theorem decimalChars_plain (q : Nat) : ∀ c ∈ decimalChars q, c ≠ ',' ∧ c ≠ '"' := by
  intro c hc
  simp only [decimalChars, List.mem_append, List.mem_cons] at hc
  rcases hc with h | h | h
  · have := isDigit_ne_seps (mem_natChars_isDigit h)
    exact ⟨this.1, this.2.1⟩
  · subst h; exact ⟨by decide, by decide⟩
  · have := isDigit_ne_seps (padNat_digits 2 _ c h)
    exact ⟨this.1, this.2.1⟩

theorem minutesField_plain (d : Nat) : ∀ c ∈ minutesField d, c ≠ ',' ∧ c ≠ '"' :=
  decimalChars_plain _

theorem hoursField_plain (d : Nat) : ∀ c ∈ hoursField d, c ≠ ',' ∧ c ≠ '"' :=
  decimalChars_plain _

theorem parseDateChars_dateChars (t : Nat) : parseDateChars (dateChars t) = msDays t := by
  unfold parseDateChars dateChars
  rw [splitOnChar_append_sep '-' _ _
      (fun c hc => (isDigit_ne_seps (padNat_digits 4 _ c hc)).2.2.1),
    splitOnChar_append_sep '-' _ _
      (fun c hc => (isDigit_ne_seps (padNat_digits 2 _ c hc)).2.2.1),
    splitOnChar_sep_free '-' _
      (fun c hc => (isDigit_ne_seps (padNat_digits 2 _ c hc)).2.2.1)]
  simp only [List.getD_cons_zero, List.getD_cons_succ]
  rw [digitsVal_padLeftZeros, digitsVal_natChars, digitsVal_padLeftZeros, digitsVal_natChars,
    digitsVal_padLeftZeros, digitsVal_natChars]
  exact daysFromCivil_civilFromDays (msDays t)

theorem parseTimeChars_timeChars (sod : Nat) : parseTimeChars (timeChars sod) = sod := by
  unfold parseTimeChars timeChars
  rw [splitOnChar_append_sep ':' _ _
      (fun c hc => (isDigit_ne_seps (padNat_digits 2 _ c hc)).2.2.2.1),
    splitOnChar_append_sep ':' _ _
      (fun c hc => (isDigit_ne_seps (padNat_digits 2 _ c hc)).2.2.2.1),
    splitOnChar_sep_free ':' _
      (fun c hc => (isDigit_ne_seps (padNat_digits 2 _ c hc)).2.2.2.1)]
  simp only [List.getD_cons_zero, List.getD_cons_succ]
  rw [digitsVal_padLeftZeros, digitsVal_natChars, digitsVal_padLeftZeros, digitsVal_natChars,
    digitsVal_padLeftZeros, digitsVal_natChars]
  omega

theorem splitRow_encodeEntryRow (e : TimeEntry) :
    splitRow (encodeEntryRow e) [] false =
      [dateChars e.startTime.toNat,
       timeChars (msSod e.startTime.toNat),
       timeChars (msSod (e.endTime.getD 0).toNat),
       natChars e.duration.toNat,
       minutesField e.duration.toNat,
       hoursField e.duration.toNat,
       e.category.toList,
       e.memo.toList] := by
  unfold encodeEntryRow
  rw [splitRow_plain_field _ _ _ (dateChars_plain _),
    splitRow_plain_field _ _ _ (timeChars_plain _),
    splitRow_plain_field _ _ _ (timeChars_plain _),
    splitRow_plain_field _ _ _ (natChars_plain _),
    splitRow_plain_field _ _ _ (minutesField_plain _),
    splitRow_plain_field _ _ _ (hoursField_plain _)]
  simp only [List.reverse_nil, List.nil_append]
  congr 1
  congr 1
  congr 1
  congr 1
  congr 1
  congr 1
  -- remaining: splitRow (quoteField cat ++ ',' :: quoteField memo) [] false = [cat, memo]
  unfold quoteField
  rw [List.cons_append, splitRow, if_neg (by decide), if_pos rfl, List.append_assoc,
    List.cons_append, List.nil_append,
    splitRow_in_quotes _ _ _ (by rw [List.head?_cons]; decide),
    splitRow, if_pos rfl, splitRow, if_neg (by decide), if_pos rfl,
    splitRow_in_quotes _ _ _ (by rw [List.head?_nil]; decide),
    splitRow]
  simp

theorem string_mk_toList (s : String) : String.mk s.toList = s := by
  cases s
  rfl

/-- C8: for every valid finalized entry — second-aligned timestamps with start
and end on the same civil day, non-negative duration, category and memo free of
newline characters (commas and quotes allowed) — decoding the encoded 8-field
CSV row reproduces startTime, endTime, duration, category and memo. -/
theorem codec_round_trip (e : TimeEntry) (st et : Nat)
    (_hrun : e.isRunning = false)
    (hst : e.startTime = (st : Int)) (het : e.endTime = some ((et : Int)))
    (hsec : st % 1000 = 0) (hesec : et % 1000 = 0)
    (hday : st / 86400000 = et / 86400000)
    (hdur : 0 ≤ e.duration)
    (_hcat : '\n' ∉ e.category.toList) (_hmemo : '\n' ∉ e.memo.toList) :
    ∃ d, decodeEntryRow (encodeEntryRow e) = some d ∧
      d.startTime = e.startTime ∧ d.endTime = e.endTime ∧ d.duration = e.duration ∧
      d.category = e.category ∧ d.memo = e.memo := by
  have hstN : e.startTime.toNat = st := by rw [hst]; exact Int.toNat_natCast st
  have hetN : (e.endTime.getD 0).toNat = et := by rw [het]; simp
  have hsplit := splitRow_encodeEntryRow e
  rw [hstN, hetN] at hsplit
  have hlen : (splitRow (encodeEntryRow e) [] false).length = 8 := by
    rw [hsplit]
    rfl
  have hstart : decodedStartMs (splitRow (encodeEntryRow e) [] false) = st := by
    unfold decodedStartMs
    rw [hsplit]
    simp only [List.getD_cons_zero, List.getD_cons_succ]
    rw [parseDateChars_dateChars, parseTimeChars_timeChars]
    unfold msDays msSod
    omega
  have hend : decodedEndMs (splitRow (encodeEntryRow e) [] false) = et := by
    unfold decodedEndMs
    rw [hsplit]
    simp only [List.getD_cons_zero, List.getD_cons_succ]
    rw [parseDateChars_dateChars, parseTimeChars_timeChars]
    unfold msDays msSod
    rw [hday]
    omega
  refine ⟨decodedEntry (splitRow (encodeEntryRow e) [] false), ?_, ?_, ?_, ?_, ?_, ?_⟩
  · unfold decodeEntryRow
    rw [if_neg (by omega)]
  · show ((decodedStartMs (splitRow (encodeEntryRow e) [] false) : Nat) : Int) = e.startTime
    rw [hstart, hst]
  · show some ((decodedEndMs (splitRow (encodeEntryRow e) [] false) : Nat) : Int) = e.endTime
    rw [hend, het]
  · show ((digitsVal ((splitRow (encodeEntryRow e) [] false).getD 3 []) : Nat) : Int) =
      e.duration
    rw [hsplit]
    simp only [List.getD_cons_zero, List.getD_cons_succ]
    rw [digitsVal_natChars]
    exact Int.toNat_of_nonneg hdur
  · show String.mk (if 8 ≤ (splitRow (encodeEntryRow e) [] false).length then
        (splitRow (encodeEntryRow e) [] false).getD 6 []
      else (splitRow (encodeEntryRow e) [] false).getD 4 []) = e.category
    rw [if_pos (by omega), hsplit]
    simp only [List.getD_cons_zero, List.getD_cons_succ]
    exact string_mk_toList e.category
  · show String.mk (if 8 ≤ (splitRow (encodeEntryRow e) [] false).length then
        (splitRow (encodeEntryRow e) [] false).getD 7 []
      else (splitRow (encodeEntryRow e) [] false).getD 5 []) = e.memo
    rw [if_pos (by omega), hsplit]
    simp only [List.getD_cons_zero, List.getD_cons_succ]
    exact string_mk_toList e.memo

/-- Witness for C8 on a concrete entry whose category and memo contain commas
and doubled-quote-requiring characters. -/
theorem codec_round_trip_witness :
    ∃ d, decodeEntryRow (encodeEntryRow sampleEntry) = some d ∧
      d.startTime = sampleEntry.startTime ∧ d.endTime = sampleEntry.endTime ∧
      d.duration = sampleEntry.duration ∧ d.category = sampleEntry.category ∧
      d.memo = sampleEntry.memo :=
  codec_round_trip sampleEntry 1000 61000 rfl rfl rfl (by decide) (by decide) (by decide)
    (by decide) (by decide) (by decide)

end PunchClock
